import Mathlib

/-!
A shallow embedding of `src/rp.py` (a single-file resource planner) and proofs about it.

Modelling conventions:
* A calendar date is its day ordinal (`Nat`), chosen so that ordinal `0` falls on a Monday;
  `weekday d = d % 7` then agrees with Python's `datetime.weekday()` (Monday = 0 … Sunday = 6).
  Date-string parsing (`datetime.strptime`) is the boundary concern of the caller and is not
  modelled; the engine receives parsed dates.
* Dictionary lookups with defaults (`settings.get(key, default)`, `project.get("priority", 0)`)
  are modelled with `Option` fields and `Option.getD`.
* Python exceptions are modelled with `Except RPError`; the real-valued arithmetic of the
  even-spread branch (`interval = len / required`, `round`) is modelled exactly over `ℚ`,
  with `pyRound` implementing Python 3's round-half-to-even.
* Python's stable ascending `sorted` is modelled with `List.insertionSort`, which is stable.
-/

/-- Python `datetime.weekday()`: Monday = 0, …, Sunday = 6.  A calendar date is its day
ordinal (`Nat`), with ordinal `0` on a Monday. -/
def weekday (d : Nat) : Nat := d % 7

/-- The exceptions `rp.py` can raise from its core functions:
`ValueError` from `validate_priorities`, `ZeroDivisionError` from `len(working_days) /
required_days`, and `IndexError` from `working_days[...]` (shown unreachable below). -/
inductive RPError where
  | valueError
  | zeroDivisionError
  | indexError
  deriving DecidableEq

/-- The `settings` dictionary; absent keys are `none` (the code reads them with `.get` and a
default). -/
structure Settings where
  working_days_per_week : Option Int
  spread_days_evenly : Option Bool
  deriving DecidableEq

/-- Line 49 of `rp.py`: `settings.get('working_days_per_week', 5)`. -/
def resolve_wdpw (s : Settings) : Int := s.working_days_per_week.getD 5

/-- Line 50 of `rp.py`: `settings.get('spread_days_evenly', False)`. -/
def resolve_spread (s : Settings) : Bool := s.spread_days_evenly.getD false

/-- The stop position of the Python slice `l[:w]` on a list of length `n`: a negative `w`
counts from the end (`n + w`, floored at `0`), a non-negative `w` is used directly
(`List.take` itself caps at the length). -/
def pySliceStop (n : Nat) (w : Int) : Nat :=
  if w < 0 then (w + n).toNat else w.toNat

/-- Line 56 of `rp.py`: `allowed_weekdays = list(range(5))[:working_days_per_week]`. -/
def allowed_weekdays (w : Int) : List Nat :=
  (List.range 5).take (pySliceStop 5 w)

/-- The allowed-weekday set as the spec's words describe it: the first `clamp(w, 0, 5)`
weekdays of a Monday-first week.  Stated from the spec (§4.2 step 1) for comparison with
`allowed_weekdays`, which is translated from the code. -/
def clampedAllowedWeekdays (w : Int) : List Nat :=
  (List.range 5).take (min (max w 0) 5).toNat

/-- Python 3's `round` to the nearest integer, ties to even, on exact rationals. -/
def pyRound (q : ℚ) : Int :=
  if q - ⌊q⌋ < 1/2 then ⌊q⌋
  else if (1:ℚ)/2 < q - ⌊q⌋ then ⌊q⌋ + 1
  else if ⌊q⌋ % 2 = 0 then ⌊q⌋ else ⌊q⌋ + 1

/-- Line 67–68 of `rp.py`: `interval = len(working_days) / required_days` (real-valued) and
the picked indices `int(round(i * interval)) for i in range(required_days)`. -/
def spreadIndices (n r : Nat) : List Int :=
  (List.range r).map fun (i : Nat) => pyRound ((i : ℚ) * ((n : ℚ) / (r : ℚ)))

/-- Python list indexing `l[k]` for an `int` index: non-negative indices are direct,
negative indices count from the end, and anything out of range is an `IndexError`
(modelled as `none`). -/
def pyIndex {α : Type} (l : List α) (k : Int) : Option α :=
  if 0 ≤ k then l[k.toNat]?
  else if 0 ≤ k + l.length then l[(k + l.length).toNat]? else none

/-- Lines 59–63 of `rp.py`: every date from `start` to `end` inclusive whose weekday is in
`allowed_weekdays` and which is not a holiday.  (`while current <= end` over an empty range
when `end < start`, which `Nat` subtraction mirrors.) -/
def eligible_days (start_date end_date : Nat) (holidays : List Nat) (w : Int) : List Nat :=
  (List.range' start_date (end_date + 1 - start_date)).filter
    fun d => decide (weekday d ∈ allowed_weekdays w) && decide (d ∉ holidays)

/-- Lines 25–73 of `rp.py`: `calculate_working_days`.  Returns
`(available_days, is_sufficient, working_days)`, or the exception the Python code raises:
`ZeroDivisionError` when the even-spread branch divides by `required_days = 0`, and
`IndexError` if a picked index were out of range. -/
def calculate_working_days (start_date end_date : Nat) (required_days : Nat)
    (holidays : List Nat) (settings : Settings) : Except RPError (Nat × Bool × List Nat) :=
  let working_days := eligible_days start_date end_date holidays (resolve_wdpw settings)
  if resolve_spread settings && decide (required_days < working_days.length) then
    if required_days = 0 then .error .zeroDivisionError
    else
      match (spreadIndices working_days.length required_days).mapM (pyIndex working_days) with
      | none => .error .indexError
      | some selected =>
          .ok (selected.length, decide (required_days ≤ selected.length), selected)
  else
    .ok (working_days.length, decide (required_days ≤ working_days.length), working_days)

/-- A project record from the configuration file.  `priority` is `Option` because the code
reads it with `project.get("priority", 0)`. -/
structure Project where
  name : String
  priority : Option Int
  start_date : Nat
  end_date : Nat
  required_days : Nat
  deriving DecidableEq

/-- The priority the code uses for a project: `project.get("priority", 0)`. -/
def priority_of (p : Project) : Int := p.priority.getD 0

/-- Lines 6–23 of `rp.py`: `validate_priorities`.  Sorts the priorities and compares them
with `1, 2, …, N`; raises `ValueError` on mismatch, else returns `True`. -/
def validate_priorities (projects : List Project) : Except RPError Bool :=
  let priorities := (projects.map priority_of).insertionSort (· ≤ ·)
  let expected_priorities := (List.range projects.length).map fun (i : Nat) => (i : Int) + 1
  if priorities = expected_priorities then .ok true else .error .valueError

/-- The assignment ledger (`assigned_dates` in `rp.py`): a Python dict in insertion order,
modelled as an association list. -/
abbrev Ledger := List (Nat × String)

/-- A record of `unassigned_projects` in `rp.py`. -/
structure Shortfall where
  name : String
  assigned_days : Nat
  required_days : Nat
  deriving DecidableEq

/-- Lines 116–122 of `rp.py`: the inner claiming loop.  Walks the working-day list, stops
once `required_days` days are claimed, and claims a day (dict insertion) only when its date
is not already a key of the ledger. -/
def claim_days (name : String) (required_days : Nat) :
    List Nat → Ledger → Nat → Ledger × Nat
  | [], assigned_dates, assigned_count => (assigned_dates, assigned_count)
  | day :: rest, assigned_dates, assigned_count =>
    if required_days ≤ assigned_count then (assigned_dates, assigned_count)
    else if day ∈ assigned_dates.map Prod.fst then
      claim_days name required_days rest assigned_dates assigned_count
    else
      claim_days name required_days rest (assigned_dates ++ [(day, name)]) (assigned_count + 1)

/-- Lines 104–130 of `rp.py`: the per-project loop of `assign_project_dates`, carrying the
ledger and the shortfall list.  Any exception from `calculate_working_days` propagates. -/
def run_projects (holidays : List Nat) (settings : Settings) :
    List Project → Ledger → List Shortfall → Except RPError (Ledger × List Shortfall)
  | [], assigned_dates, unassigned_projects => .ok (assigned_dates, unassigned_projects)
  | project :: rest, assigned_dates, unassigned_projects =>
    match calculate_working_days project.start_date project.end_date project.required_days
        holidays settings with
    | .error e => .error e
    | .ok (_available_days, _is_sufficient, working_days) =>
      let result := claim_days project.name project.required_days working_days assigned_dates 0
      let unassigned' :=
        if result.2 < project.required_days then
          unassigned_projects ++ [⟨project.name, result.2, project.required_days⟩]
        else unassigned_projects
      run_projects holidays settings rest result.1 unassigned'

/-- Lines 76–132 of `rp.py`: `assign_project_dates`, with the YAML loading (an external
collaborator) stripped away: validates priorities, sorts projects by priority (Python's
`sorted` is stable; priorities are distinct once validation passes), then runs the greedy
per-project loop starting from an empty ledger. -/
def assign_project_dates (projects : List Project) (holidays : List Nat)
    (settings : Settings) : Except RPError (Ledger × List Shortfall) :=
  match validate_priorities projects with
  | .error e => .error e
  | .ok _ =>
    run_projects holidays settings
      ((projects.insertionSort fun a b => priority_of a ≤ priority_of b)) [] []

/-! ### Facts about the allowed-weekday slice and eligible days -/

lemma allowed_weekdays_lt {w : Int} {x : Nat} (h : x ∈ allowed_weekdays w) : x < 5 := by
  have hx : x ∈ List.range 5 := List.take_subset _ _ h
  simpa using List.mem_range.mp hx

lemma mem_allowed_weekdays {w : Int} (hw : 0 ≤ w) {x : Nat} :
    x ∈ allowed_weekdays w ↔ x < 5 ∧ (x : Int) < w := by
  unfold allowed_weekdays pySliceStop
  rw [if_neg (by omega), List.take_range, List.mem_range]
  omega

lemma mem_eligible_days {start_date end_date : Nat} {holidays : List Nat} {w : Int}
    {d : Nat} :
    d ∈ eligible_days start_date end_date holidays w ↔
      start_date ≤ d ∧ d ≤ end_date ∧ weekday d ∈ allowed_weekdays w ∧ d ∉ holidays := by
  unfold eligible_days
  simp only [List.mem_filter, List.mem_range'_1, Bool.and_eq_true, decide_eq_true_eq]
  constructor
  · rintro ⟨⟨h1, h2⟩, h3, h4⟩
    exact ⟨h1, by omega, h3, h4⟩
  · rintro ⟨h1, h2, h3, h4⟩
    exact ⟨⟨h1, by omega⟩, h3, h4⟩

lemma eligible_days_sorted (start_date end_date : Nat) (holidays : List Nat) (w : Int) :
    (eligible_days start_date end_date holidays w).Pairwise (· < ·) :=
  List.Pairwise.sublist (List.filter_sublist _) (List.pairwise_lt_range' _ _)

/-! ### Facts about rounding and the even-spread index formula -/

lemma le_pyRound (q : ℚ) : q - 1/2 ≤ (pyRound q : ℚ) := by
  have h1 := Int.floor_le q
  have h2 := Int.lt_floor_add_one q
  unfold pyRound
  split_ifs <;> push_cast <;> linarith

lemma pyRound_le (q : ℚ) : (pyRound q : ℚ) ≤ q + 1/2 := by
  have h1 := Int.floor_le q
  have h2 := Int.lt_floor_add_one q
  unfold pyRound
  split_ifs <;> push_cast <;> linarith

lemma pyRound_nonneg {q : ℚ} (h : 0 ≤ q) : 0 ≤ pyRound q := by
  have h1 := le_pyRound q
  have h2 : (-1 : ℚ) < (pyRound q : ℚ) := by linarith
  have h3 : (-1 : Int) < pyRound q := by exact_mod_cast h2
  omega

lemma pyRound_lt_pyRound {x y : ℚ} (h : x + 1 < y) : pyRound x < pyRound y := by
  have h1 := pyRound_le x
  have h2 := le_pyRound y
  have : (pyRound x : ℚ) < (pyRound y : ℚ) := by linarith
  exact_mod_cast this

lemma one_lt_ratio {n r : Nat} (hr : 0 < r) (hnr : r < n) : (1 : ℚ) < (n : ℚ) / (r : ℚ) := by
  have hr' : (0 : ℚ) < (r : ℚ) := by exact_mod_cast hr
  exact (one_lt_div hr').mpr (by exact_mod_cast hnr)

lemma spreadIndices_length (n r : Nat) : (spreadIndices n r).length = r := by
  unfold spreadIndices
  rw [List.length_map, List.length_range]

lemma spreadIndices_bounds {n r : Nat} (hr : 0 < r) (hnr : r < n) :
    ∀ k ∈ spreadIndices n r, 0 ≤ k ∧ k < (n : Int) := by
  intro k hk
  simp only [spreadIndices, List.mem_map, List.mem_range] at hk
  obtain ⟨i, hi, rfl⟩ := hk
  have hr' : (0 : ℚ) < (r : ℚ) := by exact_mod_cast hr
  have hq : (1 : ℚ) < (n : ℚ) / (r : ℚ) := one_lt_ratio hr hnr
  refine ⟨pyRound_nonneg (by positivity), ?_⟩
  have hi' : (i : ℚ) ≤ (r : ℚ) - 1 := by
    have hi1 : i + 1 ≤ r := hi
    have : (i : ℚ) + 1 ≤ (r : ℚ) := by exact_mod_cast hi1
    linarith
  have hx : (i : ℚ) * ((n : ℚ) / (r : ℚ)) ≤ ((r : ℚ) - 1) * ((n : ℚ) / (r : ℚ)) :=
    mul_le_mul_of_nonneg_right hi' (by positivity)
  have hcancel : ((r : ℚ) - 1) * ((n : ℚ) / (r : ℚ)) = (n : ℚ) - (n : ℚ) / (r : ℚ) := by
    rw [sub_mul, one_mul, mul_div_cancel₀ _ (ne_of_gt hr')]
  have hle := pyRound_le ((i : ℚ) * ((n : ℚ) / (r : ℚ)))
  have : (pyRound ((i : ℚ) * ((n : ℚ) / (r : ℚ))) : ℚ) < (n : ℚ) := by linarith
  exact_mod_cast this

lemma spreadIndices_pairwise {n r : Nat} (hr : 0 < r) (hnr : r < n) :
    (spreadIndices n r).Pairwise (· < ·) := by
  unfold spreadIndices
  rw [List.pairwise_map]
  refine (List.pairwise_lt_range r).imp ?_
  intro i j hij
  apply pyRound_lt_pyRound
  have hq : (1 : ℚ) < (n : ℚ) / (r : ℚ) := one_lt_ratio hr hnr
  have hij' : (i : ℚ) + 1 ≤ (j : ℚ) := by
    have hij1 : i + 1 ≤ j := hij
    exact_mod_cast hij1
  have hmul : ((i : ℚ) + 1) * ((n : ℚ) / (r : ℚ)) ≤ (j : ℚ) * ((n : ℚ) / (r : ℚ)) :=
    mul_le_mul_of_nonneg_right hij' (by positivity)
  nlinarith

/-! ### The even-spread selection: `mapM` over `pyIndex` -/

lemma pyIndex_mem {α : Type} {l : List α} {k : Int} {y : α} (h : pyIndex l k = some y) :
    y ∈ l := by
  unfold pyIndex at h
  split_ifs at h
  · obtain ⟨hk, rfl⟩ := List.getElem?_eq_some.mp h
    exact List.getElem_mem hk
  · obtain ⟨hk, rfl⟩ := List.getElem?_eq_some.mp h
    exact List.getElem_mem hk

lemma mem_of_mapM_pyIndex {α : Type} {l : List α} :
    ∀ {idxs : List Int} {sel : List α}, idxs.mapM (pyIndex l) = some sel →
      ∀ y ∈ sel, y ∈ l := by
  intro idxs
  induction idxs with
  | nil =>
    intro sel h y hy
    rw [List.mapM_nil] at h
    cases h
    cases hy
  | cons k ks ih =>
    intro sel h y hy
    rw [List.mapM_cons] at h
    cases hk : pyIndex l k with
    | none => rw [hk] at h; cases h
    | some a =>
      rw [hk] at h
      cases hks : ks.mapM (pyIndex l) with
      | none => rw [hks] at h; cases h
      | some rest =>
        rw [hks] at h
        cases h
        rcases List.mem_cons.mp hy with rfl | hy'
        · exact pyIndex_mem hk
        · exact ih hks y hy'

lemma mapM_pyIndex_eq_some {α : Type} {l : List α} :
    ∀ {idxs : List Int}, (∀ k ∈ idxs, 0 ≤ k ∧ k < (l.length : Int)) →
      ∃ sel, idxs.mapM (pyIndex l) = some sel ∧
        List.Forall₂ (fun (k : Int) (y : α) => 0 ≤ k ∧ l[k.toNat]? = some y) idxs sel := by
  intro idxs
  induction idxs with
  | nil => exact fun _ => ⟨[], List.mapM_nil _, List.Forall₂.nil⟩
  | cons k ks ih =>
    intro h
    obtain ⟨hk0, hklt⟩ := h k (List.mem_cons_self k ks)
    have hlt : k.toNat < l.length := by omega
    have hpy : pyIndex l k = some l[k.toNat] := by
      unfold pyIndex
      rw [if_pos hk0, List.getElem?_eq_getElem hlt]
    obtain ⟨sel, hsel, hf⟩ := ih fun a ha => h a (List.mem_cons_of_mem k ha)
    refine ⟨l[k.toNat] :: sel, ?_,
      List.Forall₂.cons ⟨hk0, List.getElem?_eq_getElem hlt⟩ hf⟩
    rw [List.mapM_cons, hpy, hsel]
    rfl

lemma forall₂_mem_right {α β : Type} {R : α → β → Prop} :
    ∀ {xs : List α} {ys : List β}, List.Forall₂ R xs ys → ∀ y ∈ ys, ∃ x ∈ xs, R x y := by
  intro xs ys h
  induction h with
  | nil => intro y hy; cases hy
  | @cons a b l₁ l₂ hR _ ih =>
    intro y hy
    rcases List.mem_cons.mp hy with rfl | hy'
    · exact ⟨a, List.mem_cons_self a l₁, hR⟩
    · obtain ⟨x, hx, hRx⟩ := ih y hy'
      exact ⟨x, List.mem_cons_of_mem a hx, hRx⟩

lemma forall₂_pairwise {α β : Type} {R : α → β → Prop} {P : α → α → Prop}
    {Q : β → β → Prop} (hcomp : ∀ a b a' b', R a b → R a' b' → P a a' → Q b b') :
    ∀ {xs : List α} {ys : List β}, List.Forall₂ R xs ys → xs.Pairwise P → ys.Pairwise Q := by
  intro xs ys h
  induction h with
  | nil => intro _; exact List.Pairwise.nil
  | @cons a b l₁ l₂ hR hf ih =>
    intro hp
    rcases List.pairwise_cons.mp hp with ⟨hhead, htail⟩
    refine List.pairwise_cons.mpr ⟨?_, ih htail⟩
    intro y hy
    obtain ⟨x, hx, hRx⟩ := forall₂_mem_right hf y hy
    exact hcomp a b x y hR hRx (hhead x hx)

lemma selected_pairwise_lt {l : List Nat} (hl : l.Pairwise (· < ·)) {idxs : List Int}
    {sel : List Nat}
    (hf : List.Forall₂ (fun (k : Int) (y : Nat) => 0 ≤ k ∧ l[k.toNat]? = some y) idxs sel)
    (hp : idxs.Pairwise (· < ·)) : sel.Pairwise (· < ·) := by
  refine forall₂_pairwise ?_ hf hp
  rintro k y k' y' ⟨hk0, hget⟩ ⟨hk0', hget'⟩ hlt
  obtain ⟨hk, rfl⟩ := List.getElem?_eq_some.mp hget
  obtain ⟨hk', rfl⟩ := List.getElem?_eq_some.mp hget'
  have hidx : k.toNat < k'.toNat := by omega
  have := List.pairwise_iff_get.mp hl ⟨k.toNat, hk⟩ ⟨k'.toNat, hk'⟩ hidx
  simpa using this

/-! ### Branch behaviour of `calculate_working_days` -/

lemma calculate_no_spread (start_date end_date required_days : Nat) (holidays : List Nat)
    (s : Settings) (hs : resolve_spread s = false) :
    calculate_working_days start_date end_date required_days holidays s =
      .ok ((eligible_days start_date end_date holidays (resolve_wdpw s)).length,
        decide (required_days ≤
          (eligible_days start_date end_date holidays (resolve_wdpw s)).length),
        eligible_days start_date end_date holidays (resolve_wdpw s)) := by
  unfold calculate_working_days
  rw [hs]
  rfl

lemma calculate_spread (start_date end_date required_days : Nat) (holidays : List Nat)
    (s : Settings) (hs : resolve_spread s = true) (hr : 0 < required_days)
    (hgt : required_days <
      (eligible_days start_date end_date holidays (resolve_wdpw s)).length) :
    ∃ sel, calculate_working_days start_date end_date required_days holidays s =
        .ok (required_days, true, sel) ∧
      sel.length = required_days ∧ sel.Pairwise (· < ·) ∧
      ∀ d ∈ sel, d ∈ eligible_days start_date end_date holidays (resolve_wdpw s) := by
  obtain ⟨sel, hmap, hf⟩ :=
    mapM_pyIndex_eq_some (l := eligible_days start_date end_date holidays (resolve_wdpw s))
      (spreadIndices_bounds hr hgt)
  have hlen : sel.length = required_days := by
    have h1 := hf.length_eq
    rw [spreadIndices_length] at h1
    exact h1.symm
  refine ⟨sel, ?_, hlen,
    selected_pairwise_lt (eligible_days_sorted _ _ _ _) hf (spreadIndices_pairwise hr hgt),
    fun d hd => mem_of_mapM_pyIndex hmap d hd⟩
  unfold calculate_working_days
  rw [hs]
  simp only [Bool.true_and]
  rw [if_pos (decide_eq_true hgt), if_neg (by omega : ¬ required_days = 0), hmap]
  show Except.ok (sel.length, decide (required_days ≤ sel.length), sel) =
    Except.ok (required_days, true, sel)
  rw [hlen]
  simp

lemma calculate_zero_division {start_date end_date : Nat} {holidays : List Nat}
    {s : Settings} (hs : resolve_spread s = true)
    (hgt : 0 < (eligible_days start_date end_date holidays (resolve_wdpw s)).length) :
    calculate_working_days start_date end_date 0 holidays s =
      .error .zeroDivisionError := by
  unfold calculate_working_days
  rw [hs]
  simp only [Bool.true_and]
  rw [if_pos (decide_eq_true hgt)]
  simp

lemma calculate_spread_insufficient {start_date end_date required_days : Nat}
    {holidays : List Nat} {s : Settings} (hs : resolve_spread s = true)
    (hgt : ¬ required_days <
      (eligible_days start_date end_date holidays (resolve_wdpw s)).length) :
    calculate_working_days start_date end_date required_days holidays s =
      .ok ((eligible_days start_date end_date holidays (resolve_wdpw s)).length,
        decide (required_days ≤
          (eligible_days start_date end_date holidays (resolve_wdpw s)).length),
        eligible_days start_date end_date holidays (resolve_wdpw s)) := by
  unfold calculate_working_days
  rw [hs]
  simp only [Bool.true_and]
  rw [if_neg (by simpa using hgt)]

lemma calculate_ok_mem {start_date end_date required_days : Nat} {holidays : List Nat}
    {s : Settings} {c : Nat} {b : Bool} {days : List Nat}
    (h : calculate_working_days start_date end_date required_days holidays s =
      .ok (c, b, days)) :
    ∀ d ∈ days, d ∈ eligible_days start_date end_date holidays (resolve_wdpw s) := by
  cases hs : resolve_spread s with
  | false =>
    rw [calculate_no_spread _ _ _ _ _ hs] at h
    simp only [Except.ok.injEq, Prod.mk.injEq] at h
    obtain ⟨-, -, hdays⟩ := h
    subst hdays
    exact fun d hd => hd
  | true =>
    by_cases hgt : required_days <
        (eligible_days start_date end_date holidays (resolve_wdpw s)).length
    · by_cases hr : required_days = 0
      · subst hr
        rw [calculate_zero_division hs (by omega)] at h
        cases h
      · obtain ⟨sel, hcalc, hlen, hp, hmem⟩ :=
          calculate_spread start_date end_date required_days holidays s hs (by omega) hgt
        rw [hcalc] at h
        simp only [Except.ok.injEq, Prod.mk.injEq] at h
        obtain ⟨-, -, hdays⟩ := h
        subst hdays
        exact hmem
    · rw [calculate_spread_insufficient hs hgt] at h
      simp only [Except.ok.injEq, Prod.mk.injEq] at h
      obtain ⟨-, -, hdays⟩ := h
      subst hdays
      exact fun d hd => hd

/-! ### Invariants of the claiming loop and the per-project loop -/

lemma claim_days_spec (name : String) (required : Nat) :
    ∀ (days : List Nat) (ledger : Ledger) (cnt : Nat),
      (∀ e ∈ ledger, e ∈ (claim_days name required days ledger cnt).1) ∧
      ((ledger.map Prod.fst).Nodup →
        ((claim_days name required days ledger cnt).1.map Prod.fst).Nodup) ∧
      (∀ e ∈ (claim_days name required days ledger cnt).1,
        e ∈ ledger ∨ (e.1 ∈ days ∧ e.2 = name)) := by
  intro days
  induction days with
  | nil =>
    intro ledger cnt
    simp only [claim_days]
    exact ⟨fun e he => he, id, fun e he => .inl he⟩
  | cons day rest ih =>
    intro ledger cnt
    simp only [claim_days]
    by_cases h1 : required ≤ cnt
    · rw [if_pos h1]
      exact ⟨fun e he => he, id, fun e he => .inl he⟩
    · rw [if_neg h1]
      by_cases h2 : day ∈ ledger.map Prod.fst
      · rw [if_pos h2]
        obtain ⟨p1, p2, p3⟩ := ih ledger cnt
        exact ⟨p1, p2, fun e he =>
          (p3 e he).imp_right fun hp => ⟨List.mem_cons_of_mem _ hp.1, hp.2⟩⟩
      · rw [if_neg h2]
        obtain ⟨p1, p2, p3⟩ := ih (ledger ++ [(day, name)]) (cnt + 1)
        refine ⟨fun e he => p1 e (List.mem_append_left _ he), fun hnd => p2 ?_,
          fun e he => ?_⟩
        · have hkeys : ((ledger ++ [(day, name)]).map Prod.fst).Nodup := by
            rw [List.map_append]
            rw [List.nodup_append]
            refine ⟨hnd, List.nodup_singleton day, fun a ha hb => ?_⟩
            simp only [List.map_cons, List.map_nil, List.mem_singleton] at hb
            subst hb
            exact h2 ha
          exact hkeys
        · rcases p3 e he with hin | hp
          · rcases List.mem_append.mp hin with h | h
            · exact .inl h
            · simp only [List.mem_singleton] at h
              subst h
              exact .inr ⟨List.mem_cons_self _ _, rfl⟩
          · exact .inr ⟨List.mem_cons_of_mem _ hp.1, hp.2⟩

lemma run_projects_spec (holidays : List Nat) (s : Settings) :
    ∀ (ps : List Project) (ledger : Ledger) (shorts : List Shortfall) {ledger' : Ledger}
      {shorts' : List Shortfall},
      run_projects holidays s ps ledger shorts = .ok (ledger', shorts') →
      (∀ e ∈ ledger, e ∈ ledger') ∧
      ((ledger.map Prod.fst).Nodup → (ledger'.map Prod.fst).Nodup) ∧
      (∃ rest, shorts' = shorts ++ rest) ∧
      (∀ e ∈ ledger', e ∈ ledger ∨ ∃ p ∈ ps, p.name = e.2 ∧ p.start_date ≤ e.1 ∧
        e.1 ≤ p.end_date ∧ weekday e.1 < 5) := by
  intro ps
  induction ps with
  | nil =>
    intro ledger shorts ledger' shorts' h
    simp only [run_projects, Except.ok.injEq, Prod.mk.injEq] at h
    obtain ⟨h1, h2⟩ := h
    subst h1
    subst h2
    exact ⟨fun e he => he, id, ⟨[], by simp⟩, fun e he => .inl he⟩
  | cons p ps ih =>
    intro ledger shorts ledger' shorts' h
    simp only [run_projects] at h
    cases hc : calculate_working_days p.start_date p.end_date p.required_days holidays s with
    | error e => rw [hc] at h; cases h
    | ok triple =>
      obtain ⟨avail, suff, wdays⟩ := triple
      rw [hc] at h
      dsimp only at h
      set res := claim_days p.name p.required_days wdays ledger 0 with hres
      obtain ⟨q1, q2, q3⟩ := claim_days_spec p.name p.required_days wdays ledger 0
      rw [← hres] at q1 q2 q3
      obtain ⟨r1, r2, r3, r4⟩ := ih res.1
        (if res.2 < p.required_days then shorts ++ [⟨p.name, res.2, p.required_days⟩]
          else shorts) h
      refine ⟨fun e he => r1 e (q1 e he), fun hnd => r2 (q2 hnd), ?_, ?_⟩
      · obtain ⟨rest, hrest⟩ := r3
        by_cases hcnt : res.2 < p.required_days
        · rw [if_pos hcnt] at hrest
          refine ⟨⟨p.name, res.2, p.required_days⟩ :: rest, ?_⟩
          rw [hrest, List.append_assoc]
          rfl
        · rw [if_neg hcnt] at hrest
          exact ⟨rest, hrest⟩
      · intro e he
        rcases r4 e he with hin | ⟨p', hp', hrest'⟩
        · rcases q3 e hin with hl | ⟨hd, hn⟩
          · exact .inl hl
          · right
            refine ⟨p, List.mem_cons_self _ _, hn.symm, ?_, ?_, ?_⟩
            all_goals {
              have hel := calculate_ok_mem hc e.1 hd
              have hb := mem_eligible_days.mp hel
              first
              | exact hb.1
              | exact hb.2.1
              | exact allowed_weekdays_lt hb.2.2.1
            }
        · exact .inr ⟨p', List.mem_cons_of_mem _ hp', hrest'⟩

/-! ### Validation: sortedness facts -/

lemma validate_ok_iff_sorted_eq (projects : List Project) :
    validate_priorities projects = .ok true ↔
      (projects.map priority_of).insertionSort (· ≤ ·) =
        (List.range projects.length).map (fun (i : Nat) => (i : Int) + 1) := by
  simp only [validate_priorities]
  split
  · rename_i h
    simp [h]
  · rename_i h
    simp [h]

lemma validate_ok_or_error (projects : List Project) :
    validate_priorities projects = .ok true ∨
      validate_priorities projects = .error .valueError := by
  simp only [validate_priorities]
  split
  · exact .inl rfl
  · exact .inr rfl

lemma expected_priorities_sorted (N : Nat) :
    List.Sorted (· ≤ ·) ((List.range N).map fun (i : Nat) => (i : Int) + 1) :=
  List.pairwise_map.mpr ((List.pairwise_lt_range N).imp fun {a b} hab => by omega)

/-! ### The claims -/

/-- C1: for every run of the assignment engine that returns a result, the final ledger maps
each calendar date to at most one project name (its key list has no duplicates); every date
key lies within the start/end window of the project it is assigned to; and a date once
claimed is never overwritten — the per-project loop only ever extends the ledger, so the
first project in priority order to reach an unclaimed date keeps it. -/
theorem C1_ledger_invariants (projects : List Project) (holidays : List Nat) (s : Settings)
    (ledger : Ledger) (shorts : List Shortfall)
    (h : assign_project_dates projects holidays s = .ok (ledger, shorts)) :
    (ledger.map Prod.fst).Nodup ∧
    (∀ d nm, (d, nm) ∈ ledger →
      ∃ p ∈ projects, p.name = nm ∧ p.start_date ≤ d ∧ d ≤ p.end_date) ∧
    (∀ (ps : List Project) (l₀ : Ledger) (sh₀ : List Shortfall) (l₁ : Ledger)
      (sh₁ : List Shortfall), run_projects holidays s ps l₀ sh₀ = .ok (l₁, sh₁) →
      ∀ e ∈ l₀, e ∈ l₁) := by
  have hrun : run_projects holidays s
      (projects.insertionSort fun a b => priority_of a ≤ priority_of b) [] [] =
      .ok (ledger, shorts) := by
    unfold assign_project_dates at h
    cases hv : validate_priorities projects with
    | error e => rw [hv] at h; cases h
    | ok b => rw [hv] at h; exact h
  obtain ⟨r1, r2, r3, r4⟩ := run_projects_spec holidays s _ [] [] hrun
  refine ⟨r2 (by simp), ?_,
    fun ps l₀ sh₀ l₁ sh₁ hr => (run_projects_spec holidays s ps l₀ sh₀ hr).1⟩
  intro d nm hmem
  rcases r4 (d, nm) hmem with hin | ⟨p, hp, hname, h1, h2, -⟩
  · exact absurd hin (List.not_mem_nil _)
  · exact ⟨p, (List.perm_insertionSort _ projects).mem_iff.mp hp, hname, h1, h2⟩

/-- Witness for C1: a concrete one-project run, with the engine evaluated at the input. -/
theorem C1_ledger_invariants_witness :
    (([(0, "A"), (1, "A")] : Ledger).map Prod.fst).Nodup ∧
    (∀ d nm, (d, nm) ∈ ([(0, "A"), (1, "A")] : Ledger) →
      ∃ p ∈ ([⟨"A", some 1, 0, 4, 2⟩] : List Project),
        p.name = nm ∧ p.start_date ≤ d ∧ d ≤ p.end_date) ∧
    (∀ (ps : List Project) (l₀ : Ledger) (sh₀ : List Shortfall) (l₁ : Ledger)
      (sh₁ : List Shortfall), run_projects [] ⟨none, none⟩ ps l₀ sh₀ = .ok (l₁, sh₁) →
      ∀ e ∈ l₀, e ∈ l₁) :=
  C1_ledger_invariants [⟨"A", some 1, 0, 4, 2⟩] [] ⟨none, none⟩ [(0, "A"), (1, "A")] [] rfl

/-- C2: `validate_priorities` succeeds (returning `true`) if and only if the multiset of
the projects' priority values (a missing priority counted as `0`) is exactly
`{1, …, N}` for `N` the number of projects; otherwise it fails with the `ValueError`
(and those are the only two outcomes — it has no other effect). -/
theorem C2_validate_iff_multiset (projects : List Project) :
    (validate_priorities projects = .ok true ↔
      (↑(projects.map priority_of) : Multiset Int) =
        ↑((List.range projects.length).map fun (i : Nat) => (i : Int) + 1)) ∧
    (validate_priorities projects = .ok true ∨
      validate_priorities projects = .error .valueError) := by
  refine ⟨?_, validate_ok_or_error projects⟩
  rw [validate_ok_iff_sorted_eq, Multiset.coe_eq_coe]
  constructor
  · intro h
    have hperm := (List.perm_insertionSort (· ≤ ·) (projects.map priority_of)).symm
    rw [h] at hperm
    exact hperm
  · intro hperm
    have hp : ((projects.map priority_of).insertionSort (· ≤ ·)).Perm
        ((List.range projects.length).map fun (i : Nat) => (i : Int) + 1) :=
      (List.perm_insertionSort _ _).trans hperm
    exact List.eq_of_perm_of_sorted hp (List.sorted_insertionSort _ _)
      (expected_priorities_sorted _)

/-- C3 counterexample: the claim says the calculator behaves as if `working_days_per_week`
were clamped into `[0,5]`, with a negative value yielding an empty allowed set.  At
`working_days_per_week = -1` the code's Python slice `list(range(5))[:-1]` instead yields
`[0,1,2,3]` (Monday–Thursday), the clamped reading yields `[]`, and the calculator over a
Monday-to-Sunday week reports four eligible days, not zero. -/
theorem C3_counterexample :
    allowed_weekdays (-1) = [0, 1, 2, 3] ∧ clampedAllowedWeekdays (-1) = [] ∧
    calculate_working_days 0 6 1 [] ⟨some (-1), none⟩ = .ok (4, true, [0, 1, 2, 3]) :=
  ⟨rfl, rfl, rfl⟩

/-- C3 amended: `working_days_per_week` defaults to `5` when absent; a non-negative value
behaves as if clamped into `[0,5]`; but a negative value follows Python slice semantics —
the allowed set is the first `5 + w` weekdays (floored at none), so only values `≤ -5`
give an empty allowed set. -/
theorem C3_amended_slice_semantics :
    (∀ s : Settings, s.working_days_per_week = none → resolve_wdpw s = 5) ∧
    (∀ w : Int, 0 ≤ w → allowed_weekdays w = clampedAllowedWeekdays w) ∧
    (∀ w : Int, w < 0 → allowed_weekdays w = (List.range 5).take (5 + w).toNat) ∧
    (∀ w : Int, w ≤ -5 → allowed_weekdays w = []) := by
  refine ⟨fun s h => ?_, fun w hw => ?_, fun w hw => ?_, fun w hw => ?_⟩
  · unfold resolve_wdpw
    rw [h]
    rfl
  · unfold allowed_weekdays clampedAllowedWeekdays pySliceStop
    rw [if_neg (by omega), List.take_range, List.take_range]
    congr 1
    omega
  · unfold allowed_weekdays pySliceStop
    rw [if_pos hw, List.take_range, List.take_range]
    congr 1
    omega
  · unfold allowed_weekdays pySliceStop
    rw [if_pos (by omega)]
    have h0 : (w + ((5 : Nat) : Int)).toNat = 0 := by omega
    rw [h0]
    rfl

/-- Witness for C3 amended, at `w = 3`, `w = -2`, `w = -7` and absent settings. -/
theorem C3_amended_witness :
    resolve_wdpw ⟨none, none⟩ = 5 ∧ allowed_weekdays 3 = clampedAllowedWeekdays 3 ∧
    allowed_weekdays (-2) = (List.range 5).take ((5 : Int) + (-2)).toNat ∧
    allowed_weekdays (-7) = [] :=
  ⟨C3_amended_slice_semantics.1 ⟨none, none⟩ rfl,
   C3_amended_slice_semantics.2.1 3 (by decide),
   C3_amended_slice_semantics.2.2.1 (-2) (by decide),
   C3_amended_slice_semantics.2.2.2 (-7) (by decide)⟩

/-- C4: the claim says the calculator never fails on inputs meeting its preconditions, in
particular not when `requiredDays = 0` with `spread_days_evenly` enabled and a non-empty
eligible-day list.  The code divides `len(working_days) / required_days` there and raises
`ZeroDivisionError`: here at start = end = a Monday, `required_days = 0`, no holidays. -/
theorem C4_code_bug_zero_division :
    calculate_working_days 0 0 0 [] ⟨none, some true⟩ = .error .zeroDivisionError := rfl

/-- C5: the claim says that once priority validation succeeds the run always completes and
returns a result.  On a configuration whose single project has valid priority `1` but
`required_days = 0`, with `spread_days_evenly` on, validation succeeds and yet the run
aborts with the `ZeroDivisionError` from the calculator. -/
theorem C5_code_bug_run_crashes :
    validate_priorities [⟨"A", some 1, 0, 0, 0⟩] = .ok true ∧
    assign_project_dates [⟨"A", some 1, 0, 0, 0⟩] [] ⟨none, some true⟩ =
      .error .zeroDivisionError :=
  ⟨rfl, rfl⟩

/-- C6: with `spread_days_evenly` off, the calculator returns exactly the dates of
`[start, end]` whose weekday is among the first `working_days_per_week` weekdays of
Monday–Friday (expressed arithmetically: `weekday d < 5` and `weekday d < wdpw`) and which
are not holidays, in chronological order, with `availableCount` their number and
`is_sufficient` the comparison against `requiredDays`. -/
theorem C6_no_spread_exact_count (start_date end_date required_days : Nat)
    (holidays : List Nat) (s : Settings) (hrange : start_date ≤ end_date)
    (hs : resolve_spread s = false) (hw : 0 ≤ resolve_wdpw s) :
    ∃ days, calculate_working_days start_date end_date required_days holidays s =
        .ok (days.length, decide (required_days ≤ days.length), days) ∧
      days.Pairwise (· < ·) ∧
      ∀ d, d ∈ days ↔ (start_date ≤ d ∧ d ≤ end_date ∧ weekday d < 5 ∧
        (weekday d : Int) < resolve_wdpw s ∧ d ∉ holidays) := by
  refine ⟨eligible_days start_date end_date holidays (resolve_wdpw s),
    calculate_no_spread _ _ _ _ _ hs, eligible_days_sorted _ _ _ _, fun d => ?_⟩
  rw [mem_eligible_days, mem_allowed_weekdays hw]
  tauto

/-- Witness for C6: a two-week window with a holiday and a three-day work week. -/
theorem C6_no_spread_exact_count_witness :
    ∃ days, calculate_working_days 0 13 2 [2] ⟨some 3, none⟩ =
        .ok (days.length, decide (2 ≤ days.length), days) ∧
      days.Pairwise (· < ·) ∧
      ∀ d, d ∈ days ↔ (0 ≤ d ∧ d ≤ 13 ∧ weekday d < 5 ∧
        (weekday d : Int) < resolve_wdpw ⟨some 3, none⟩ ∧ d ∉ [2]) :=
  C6_no_spread_exact_count 0 13 2 [2] ⟨some 3, none⟩ (by decide) rfl (by decide)

/-- C7 counterexample: the claim says that for two projects with overlapping windows and
insufficient combined days, the higher-priority project's shortfall count is at most the
lower-priority one's.  Project `A` (priority 1, window = a single Monday, 3 days required)
and `B` (priority 2, window Monday–Tuesday, 2 days required) overlap, the union window has
only 2 eligible days `< 3 + 2`, yet `A`'s shortfall is `3 - 1 = 2` while `B`'s is
`2 - 1 = 1`. -/
theorem C7_counterexample :
    assign_project_dates [⟨"A", some 1, 0, 0, 3⟩, ⟨"B", some 2, 0, 1, 2⟩] [] ⟨none, none⟩ =
      .ok ([(0, "A"), (1, "B")], [⟨"A", 1, 3⟩, ⟨"B", 1, 2⟩]) ∧
    (0 : Nat) ≤ 1 ∧ (0 : Nat) ≤ 0 ∧
    (eligible_days 0 1 [] (resolve_wdpw ⟨none, none⟩)).length < 3 + 2 ∧
    ¬ ((3 - 1 : Nat) ≤ 2 - 1) :=
  ⟨rfl, by decide, by decide, by decide, by decide⟩

/-- C7 amended: the `≤` comparison between shortfall counts does not hold in general; what
priority precedence does guarantee is that the higher-priority project's outcome is
unaffected by the lower-priority one: under the claim's hypotheses (priorities 1 and 2,
overlapping windows, insufficient combined days), the shortfall list of the two-project run
extends the shortfall list of running the higher-priority project alone. -/
theorem C7_amended_precedence (A B : Project) (holidays : List Nat) (s : Settings)
    (hA : priority_of A = 1) (hB : priority_of B = 2)
    (hov : A.start_date ≤ B.end_date ∧ B.start_date ≤ A.end_date)
    (hins : (eligible_days (min A.start_date B.start_date) (max A.end_date B.end_date)
      holidays (resolve_wdpw s)).length < A.required_days + B.required_days)
    (l₂ : Ledger) (sh₂ : List Shortfall) (l₁ : Ledger) (sh₁ : List Shortfall)
    (h₂ : assign_project_dates [A, B] holidays s = .ok (l₂, sh₂))
    (h₁ : assign_project_dates [A] holidays s = .ok (l₁, sh₁)) :
    ∃ rest, sh₂ = sh₁ ++ rest := by
  have hrun₂ : run_projects holidays s [A, B] [] [] = .ok (l₂, sh₂) := by
    unfold assign_project_dates at h₂
    cases hv : validate_priorities [A, B] with
    | error e => rw [hv] at h₂; cases h₂
    | ok b =>
      rw [hv] at h₂
      have hsort : [A, B].insertionSort (fun a b => priority_of a ≤ priority_of b) =
          [A, B] := by
        simp [List.insertionSort, List.orderedInsert, hA, hB]
      rw [hsort] at h₂
      exact h₂
  have hrun₁ : run_projects holidays s [A] [] [] = .ok (l₁, sh₁) := by
    unfold assign_project_dates at h₁
    cases hv : validate_priorities [A] with
    | error e => rw [hv] at h₁; cases h₁
    | ok b => rw [hv] at h₁; exact h₁
  simp only [run_projects] at hrun₁ hrun₂
  cases hcA : calculate_working_days A.start_date A.end_date A.required_days holidays s with
  | error e => rw [hcA] at hrun₁; cases hrun₁
  | ok tA =>
    obtain ⟨aA, sA, wA⟩ := tA
    rw [hcA] at hrun₁ hrun₂
    dsimp only at hrun₁ hrun₂
    simp only [Except.ok.injEq, Prod.mk.injEq] at hrun₁
    obtain ⟨hl₁, hsh₁⟩ := hrun₁
    cases hcB : calculate_working_days B.start_date B.end_date B.required_days holidays s with
    | error e => rw [hcB] at hrun₂; cases hrun₂
    | ok tB =>
      obtain ⟨aB, sB, wB⟩ := tB
      rw [hcB] at hrun₂
      dsimp only at hrun₂
      simp only [Except.ok.injEq, Prod.mk.injEq] at hrun₂
      obtain ⟨hl₂, hsh₂⟩ := hrun₂
      rw [hsh₁] at hsh₂
      by_cases hbc : (claim_days B.name B.required_days wB
          (claim_days A.name A.required_days wA [] 0).1 0).2 < B.required_days
      · rw [if_pos hbc] at hsh₂
        exact ⟨_, hsh₂.symm⟩
      · rw [if_neg hbc] at hsh₂
        exact ⟨[], by rw [List.append_nil]; exact hsh₂.symm⟩

/-- Witness for C7 amended, at the counterexample's configuration. -/
theorem C7_amended_precedence_witness :
    ∃ rest, ([⟨"A", 1, 3⟩, ⟨"B", 1, 2⟩] : List Shortfall) = [⟨"A", 1, 3⟩] ++ rest :=
  C7_amended_precedence ⟨"A", some 1, 0, 0, 3⟩ ⟨"B", some 2, 0, 1, 2⟩ [] ⟨none, none⟩ rfl rfl
    ⟨by decide, by decide⟩ (by decide) [(0, "A"), (1, "B")] [⟨"A", 1, 3⟩, ⟨"B", 1, 2⟩]
    [(0, "A")] [⟨"A", 1, 3⟩] rfl rfl

/-- C8 counterexample (negation of the claimed existence): there is no input on which the
even-spread branch's index formula collides.  Whenever the branch is reachable
(`requiredDays ≥ 1` and eligible count strictly greater), `interval > 1`, so the rounded
indices are pairwise distinct — the claimed duplicate indices cannot occur. -/
theorem C8_counterexample :
    ¬ ∃ (n r : Nat), 1 ≤ r ∧ r < n ∧ ¬ (spreadIndices n r).Nodup := by
  rintro ⟨n, r, hr, hnr, hdup⟩
  exact hdup ((spreadIndices_pairwise (by omega) hnr).imp fun {a b} h => ne_of_lt h)

/-- C8 amended: with `spread_days_evenly = true` and eligible count strictly greater than
`requiredDays ≥ 1`, the index formula produces no duplicates — the returned list holds
exactly `requiredDays` pairwise-distinct dates and `availableCount = requiredDays` with
`is_sufficient = true`. -/
theorem C8_amended_no_collisions (start_date end_date required_days : Nat)
    (holidays : List Nat) (s : Settings) (hs : resolve_spread s = true)
    (hr : 1 ≤ required_days)
    (hgt : required_days <
      (eligible_days start_date end_date holidays (resolve_wdpw s)).length) :
    ∃ days, calculate_working_days start_date end_date required_days holidays s =
        .ok (required_days, true, days) ∧
      days.length = required_days ∧ days.Nodup := by
  obtain ⟨sel, hcalc, hlen, hp, hmem⟩ :=
    calculate_spread start_date end_date required_days holidays s hs (by omega) hgt
  exact ⟨sel, hcalc, hlen, hp.imp fun {a b} h => ne_of_lt h⟩

/-- Witness for C8 amended: 5 eligible days, 2 required, `interval = 2.5`. -/
theorem C8_amended_no_collisions_witness :
    ∃ days, calculate_working_days 0 6 2 [] ⟨none, some true⟩ = .ok (2, true, days) ∧
      days.length = 2 ∧ days.Nodup :=
  C8_amended_no_collisions 0 6 2 [] ⟨none, some true⟩ rfl (by decide) (by decide)

/-- C9: for every value of `working_days_per_week` (also above 5 or below 0) no returned
working day, and hence no ledger date, falls on a Saturday (`weekday = 5`) or Sunday
(`weekday = 6`). -/
theorem C9_no_weekends :
    (∀ (start_date end_date required_days : Nat) (holidays : List Nat) (s : Settings)
      (c : Nat) (b : Bool) (days : List Nat),
      calculate_working_days start_date end_date required_days holidays s = .ok (c, b, days) →
      ∀ d ∈ days, weekday d ≠ 5 ∧ weekday d ≠ 6) ∧
    (∀ (projects : List Project) (holidays : List Nat) (s : Settings) (ledger : Ledger)
      (shorts : List Shortfall),
      assign_project_dates projects holidays s = .ok (ledger, shorts) →
      ∀ e ∈ ledger, weekday e.1 ≠ 5 ∧ weekday e.1 ≠ 6) := by
  constructor
  · intro start_date end_date required_days holidays s c b days h d hd
    have hb5 := allowed_weekdays_lt (mem_eligible_days.mp (calculate_ok_mem h d hd)).2.2.1
    omega
  · intro projects holidays s ledger shorts h e he
    have hrun : run_projects holidays s
        (projects.insertionSort fun a b => priority_of a ≤ priority_of b) [] [] =
        .ok (ledger, shorts) := by
      unfold assign_project_dates at h
      cases hv : validate_priorities projects with
      | error er => rw [hv] at h; cases h
      | ok b => rw [hv] at h; exact h
    obtain ⟨-, -, -, r4⟩ := run_projects_spec holidays s _ [] [] hrun
    rcases r4 e he with hin | ⟨p, hp, -, -, -, hw⟩
    · exact absurd hin (List.not_mem_nil e)
    · omega

/-- Witness for C9, at a concrete full-week calculation. -/
theorem C9_no_weekends_witness : weekday 1 ≠ 5 ∧ weekday 1 ≠ 6 :=
  C9_no_weekends.1 0 6 1 [] ⟨none, none⟩ 5 true [0, 1, 2, 3, 4] rfl 1 (by decide)

/-- C10: whenever the even-spread branch executes (`spread_days_evenly = true`, eligible
count greater than `requiredDays ≥ 1`), every computed index is within `[0, count)`, the
index sequence is strictly increasing, and the calculator returns exactly `requiredDays`
dates in chronological order. -/
theorem C10_spread_indices_safe (start_date end_date required_days : Nat)
    (holidays : List Nat) (s : Settings) (hs : resolve_spread s = true)
    (hr : 1 ≤ required_days)
    (hgt : required_days <
      (eligible_days start_date end_date holidays (resolve_wdpw s)).length) :
    (∀ k ∈ spreadIndices
        (eligible_days start_date end_date holidays (resolve_wdpw s)).length required_days,
      0 ≤ k ∧
        k < ((eligible_days start_date end_date holidays (resolve_wdpw s)).length : Int)) ∧
    (spreadIndices
        (eligible_days start_date end_date holidays (resolve_wdpw s)).length
        required_days).Pairwise (· < ·) ∧
    ∃ days, calculate_working_days start_date end_date required_days holidays s =
        .ok (required_days, true, days) ∧
      days.length = required_days ∧ days.Pairwise (· < ·) := by
  obtain ⟨sel, hcalc, hlen, hp, hmem⟩ :=
    calculate_spread start_date end_date required_days holidays s hs (by omega) hgt
  exact ⟨spreadIndices_bounds (by omega) hgt, spreadIndices_pairwise (by omega) hgt,
    sel, hcalc, hlen, hp⟩

/-- Witness for C10: 10 eligible days, 3 required, `interval = 10/3`. -/
theorem C10_spread_indices_safe_witness :
    (∀ k ∈ spreadIndices (eligible_days 0 13 [] (resolve_wdpw ⟨none, some true⟩)).length 3,
      0 ≤ k ∧ k < ((eligible_days 0 13 [] (resolve_wdpw ⟨none, some true⟩)).length : Int)) ∧
    (spreadIndices
        (eligible_days 0 13 [] (resolve_wdpw ⟨none, some true⟩)).length 3).Pairwise (· < ·) ∧
    ∃ days, calculate_working_days 0 13 3 [] ⟨none, some true⟩ = .ok (3, true, days) ∧
      days.length = 3 ∧ days.Pairwise (· < ·) :=
  C10_spread_indices_safe 0 13 3 [] ⟨none, some true⟩ rfl (by decide) (by decide)
